import Mathlib

/-
Verification of the asset-watcher / advisory-notification pipelines.

The Go sources are shallowly embedded: strings are Lean `String`s
(`String.data : List Char` plays the role of Go's rune view), Go slices are
`List`s, Go maps appear as association lists, fallible operations return
`Except`/`Option`, and the process environment is a function
`String → Option String`.  Machine integers that matter (the 64-bit parse in
`LoadConfig`) are `Int` with the explicit `[-2^63, 2^63-1]` range check.
-/

/-! ## Go `strings` helpers: `TrimSpace` and `Split` -/

/-- Go `unicode.IsSpace` restricted to the Latin-1 range (the characters the
repository's inputs can contain): `'\t' '\n' '\v' '\f' '\r' ' '` plus NEL
(U+0085) and NBSP (U+00A0). -/
def goIsSpace (c : Char) : Bool :=
  c == ' ' || c == '\t' || c == '\n' || c == Char.ofNat 11 || c == Char.ofNat 12 ||
    c == '\r' || c == Char.ofNat 0x85 || c == Char.ofNat 0xA0

/-- Character-list core of Go `strings.TrimSpace`: drop whitespace from the
front, then from the back. -/
def trimChars (l : List Char) : List Char :=
  ((l.dropWhile goIsSpace).reverse.dropWhile goIsSpace).reverse

/-- Go `strings.TrimSpace`. -/
def goTrimSpace (s : String) : String :=
  String.mk (trimChars s.data)

/-- Index of the first occurrence of `sep` (as a contiguous sublist) in `l`,
Go's `strings.Index` for a non-empty separator. -/
def firstIdx (sep : List Char) : List Char → Option Nat
  | [] => none
  | a :: t =>
    if sep.isPrefixOf (a :: t) then some 0
    else (firstIdx sep t).map (· + 1)

/-- Go `strings.Split` for the non-empty separator `c :: cs`: cut at the first
occurrence of the separator and recurse on the rest. -/
def goSplitNE (c : Char) (cs : List Char) (l : List Char) : List (List Char) :=
  match h : firstIdx (c :: cs) l with
  | none => [l]
  | some i => l.take i :: goSplitNE c cs (l.drop (i + (cs.length + 1)))
termination_by l.length
decreasing_by
  have hne : l ≠ [] := by
    intro he
    subst he
    simp [firstIdx] at h
  have hpos : 0 < l.length := List.length_pos.mpr hne
  simp only [List.length_drop]
  omega

/-- Go `strings.Split`.  An empty separator makes Go explode the string into
its runes; otherwise the string is cut at each occurrence of the separator. -/
def goSplit (s sep : String) : List String :=
  match sep.data with
  | [] => s.data.map (fun c => String.mk [c])
  | c :: cs => (goSplitNE c cs s.data).map String.mk

/-- `splitString` from src/processor.go: an all-whitespace input yields `[]`;
otherwise split on the separator, trim each piece, and keep the non-empty
trimmed pieces in order. -/
def splitString (s : String) (separator : String) : List String :=
  if goTrimSpace s = "" then []
  else ((goSplit s separator).map goTrimSpace).filter (fun piece => piece != "")

/-- Proof-side reference implementation of `strings.Split` for a one-character
separator, by structural recursion (used to evaluate and reason about
`goSplitNE`, whose recursion is by well-founded measure). -/
def splitOnChar (c : Char) : List Char → List (List Char)
  | [] => [[]]
  | a :: t =>
    if a = c then [] :: splitOnChar c t
    else
      match splitOnChar c t with
      | [] => [[a]]
      | x :: xs => (a :: x) :: xs

/-- Modelled from the spec: "the trailing segment is everything after the last
`/`" (and the whole string when there is no `/`).  Character-list version. -/
def afterLastChars (c : Char) (l : List Char) : List Char :=
  (l.reverse.takeWhile (fun a => a != c)).reverse

/-- Modelled from the spec: the substring of `s` after the last `'/'`. -/
def afterLastSlash (s : String) : String :=
  String.mk (afterLastChars '/' s.data)

/-! ## Data model: `assetpb.ResourceSearchResult` and the asset-watcher config -/

/-- The kind of a `structpb.Value`.  The numeric payload of `NumberValue` is
elided (no code in the repository reads it; only the kind tag is inspected). -/
inductive PBKind where
  | nullValue : PBKind
  | numberValue : PBKind
  | stringValue (s : String) : PBKind
  | boolValue (b : Bool) : PBKind
  | structValue : PBKind
  | listValue : PBKind
deriving DecidableEq

/-- A `structpb.Value`; `GetKind()` can return nil, hence the `Option`. -/
structure PBValue where
  kind : Option PBKind
deriving DecidableEq

/-- A `structpb.Struct`; its `Fields` map can be nil, and a present map is
modelled as an association list whose values can be nil pointers. -/
structure PBStruct where
  fields : Option (List (String × Option PBValue))
deriving DecidableEq

/-- Go map lookup `fields[key]`: `none` when the key is absent, otherwise the
stored (possibly nil) pointer. -/
def assocFind (fields : List (String × Option PBValue)) (key : String) :
    Option (Option PBValue) :=
  (fields.find? (fun f => f.1 == key)).map (fun f => f.2)

/-- The getter chain `GetAdditionalAttributes().GetFields()`: a nil struct has
a nil fields map. -/
def structFields : Option PBStruct → Option (List (String × Option PBValue))
  | none => none
  | some st => st.fields

/-- A UTC wall-clock instant as `time.Time` presents it to `Format`; the
protobuf-seconds-to-civil conversion is the external SDK's concern. -/
structure GoTime where
  year : Nat
  month : Nat
  day : Nat
  hour : Nat
  minute : Nat
  second : Nat
deriving DecidableEq

def pad2 (n : Nat) : String :=
  if n < 10 then "0" ++ toString n else toString n

def pad4 (n : Nat) : String :=
  if n < 10 then "000" ++ toString n
  else if n < 100 then "00" ++ toString n
  else if n < 1000 then "0" ++ toString n
  else toString n

/-- `time.Time.Format("2006-01-02 15:04:05")`. -/
def formatTime (t : GoTime) : String :=
  pad4 t.year ++ "-" ++ pad2 t.month ++ "-" ++ pad2 t.day ++ " " ++
    pad2 t.hour ++ ":" ++ pad2 t.minute ++ ":" ++ pad2 t.second

/-- The fields of `assetpb.ResourceSearchResult` the program reads. -/
structure AssetRecord where
  displayName : String
  location : String
  state : String
  createTime : GoTime
  parentAssetType : String
  parentFullResourceName : String
  additionalAttributes : Option PBStruct
deriving DecidableEq

/-- `ProcessedAsset` from src/processor.go. -/
structure ProcessedAsset where
  name : String
  location : String
  status : String
  ipAddress : String
  project : String
  createdAt : String
deriving DecidableEq

/-- The asset-watcher `Config` (src/config.go). -/
structure Config where
  orgID : String
  debug : Bool
  outputFormat : String
  excludeReserved : Bool
  excludeProjects : String
  includeProjects : String
deriving DecidableEq

/-! ## Field extraction (src/processor.go) -/

/-- `getIPAddress` from src/processor.go: the `"address"` attribute when it is
a present, non-nil, string-typed value; the sentinel `"N/A"` otherwise. -/
def getIPAddress (asset : AssetRecord) : String :=
  match structFields asset.additionalAttributes with
  | none => "N/A"
  | some fields =>
    match assocFind fields "address" with
    | none => "N/A"
    | some none => "N/A"
    | some (some addressField) =>
      match addressField.kind with
      | some (PBKind.stringValue sv) => sv
      | _ => "N/A"

/-- `getProjectID` from src/processor.go: for a project-typed parent, the last
`/`-separated segment of the parent resource path; `"N/A"` otherwise. -/
def getProjectID (asset : AssetRecord) : String :=
  if asset.parentAssetType = "cloudresourcemanager.googleapis.com/Project" then
    if (goSplit asset.parentFullResourceName "/").length > 0 then
      (goSplit asset.parentFullResourceName "/").getLastD "N/A"
    else "N/A"
  else "N/A"

/-- The `ProcessedAsset` built for an included record inside `ProcessAssets`. -/
def processedOf (asset : AssetRecord) : ProcessedAsset :=
  { name := asset.displayName
    location := asset.location
    project := getProjectID asset
    ipAddress := getIPAddress asset
    status := asset.state
    createdAt := formatTime asset.createTime }

/-! ## `ProcessAssets` (src/processor.go)

The `AssetIterator` is embedded as the finite sequence of records it yields
followed by its terminal signal: `none` for `iterator.Done`, `some e` for a
transport error `e` raised by `Next()`. -/

/-- The loop of `ProcessAssets`: `acc` is the `processedResults` slice built so
far; a terminal error returns wrapped, discarding `acc` (Go returns `nil, err`). -/
def processLoop (excludeReserved : Bool) (includeProjects excludeProjects : List String)
    (acc : List ProcessedAsset) :
    List AssetRecord → Option String → Except String (List ProcessedAsset)
  | [], none => Except.ok acc
  | [], some e => Except.error ("failed to create asset client: " ++ e)
  | asset :: rest, terminal =>
    if excludeReserved && asset.state == "RESERVED" then
      processLoop excludeReserved includeProjects excludeProjects acc rest terminal
    else if excludeProjects.contains (getProjectID asset) then
      processLoop excludeReserved includeProjects excludeProjects acc rest terminal
    else if (if includeProjects.length > 0 then
               includeProjects.contains (getProjectID asset)
             else true) then
      processLoop excludeReserved includeProjects excludeProjects
        (acc ++ [processedOf asset]) rest terminal
    else
      processLoop excludeReserved includeProjects excludeProjects acc rest terminal

/-- `ProcessAssets` from src/processor.go. -/
def processAssets (cfg : Config) (assets : List AssetRecord) (terminal : Option String) :
    Except String (List ProcessedAsset) :=
  processLoop cfg.excludeReserved (splitString cfg.includeProjects ",")
    (splitString cfg.excludeProjects ",") [] assets terminal

/-- The emission condition as the spec states it, over the already-split
project lists: not (excludeReserved and state RESERVED), and the derived
project id is not in the exclude list, and (the include list is empty or the
derived project id is in it). -/
def specKeepL (excludeReserved : Bool) (includeProjects excludeProjects : List String)
    (asset : AssetRecord) : Bool :=
  !(excludeReserved && asset.state == "RESERVED") &&
    !(excludeProjects.contains (getProjectID asset)) &&
    (includeProjects.isEmpty || includeProjects.contains (getProjectID asset))

/-- The emission condition of the spec over a `Config`. -/
def specKeep (cfg : Config) (asset : AssetRecord) : Bool :=
  specKeepL cfg.excludeReserved (splitString cfg.includeProjects ",")
    (splitString cfg.excludeProjects ",") asset

/-! ## Output dispatch (src/config.go, `outputToStdOut`) -/

/-- ASCII `strings.ToUpper` (the inputs compared here are ASCII). -/
def goToUpper (s : String) : String :=
  String.mk (s.data.map Char.toUpper)

/-- ASCII `strings.ToLower`. -/
def goToLower (s : String) : String :=
  String.mk (s.data.map Char.toLower)

/-- What `outputToStdOut` does with the format string. -/
inductive RenderChoice where
  | table : RenderChoice
  | json : RenderChoice
  | unknownThenTable : RenderChoice
deriving DecidableEq

/-- The `switch outputFormat` of `outputToStdOut` (src/config.go): an exact,
case-sensitive match; the default arm writes `unknown output format` to
standard error and renders the table. -/
def outputToStdOut (outputFormat : String) : RenderChoice :=
  if outputFormat = "table" then RenderChoice.table
  else if outputFormat = "json" then RenderChoice.json
  else RenderChoice.unknownThenTable

/-- The `GetConfig` validation of `OutputFormat` (src/config.go): `log.Fatalf`
exactly when the lowercased value is neither `table` nor `json`.  `true` means
the configuration is accepted. -/
def outputFormatAccepted (outputFormat : String) : Bool :=
  !(goToLower outputFormat != "table" && goToLower outputFormat != "json")

/-! ## Asset-watcher `main` (src/unnamed/part_009) -/

/-- An observable action of the asset-watcher `main`. -/
inductive MainEffect where
  | logError (message : String) : MainEffect
  | render (assets : List ProcessedAsset) (outputFormat : String) : MainEffect
deriving DecidableEq

/-- The outcome of one run of the asset-watcher `main`. -/
structure MainRun where
  effects : List MainEffect
  exitCode : Nat
deriving DecidableEq

/-- The asset-watcher `main` (src/unnamed/part_009) from the point where the
fetcher has handed over its iterator.  When `ProcessAssets` returns an error,
the code only logs it (`logger.ErrorContext`) — there is no `os.Exit` on this
path — and control falls through to `outputToStdOut` with the nil result
slice; `main` then returns normally, so the process exit status is 0.  Debug
and warning log lines are omitted as observability. -/
def assetWatcherMain (cfg : Config) (assets : List AssetRecord)
    (terminal : Option String) : MainRun :=
  match processAssets cfg assets terminal with
  | Except.error e =>
    { effects := [MainEffect.logError ("failed to process assets: " ++ e),
                  MainEffect.render [] cfg.outputFormat]
      exitCode := 0 }
  | Except.ok processedAssets =>
    { effects := [MainEffect.render processedAssets cfg.outputFormat]
      exitCode := 0 }

/-! ## Notification variant: configuration (src/config.go, `LoadConfig`) -/

/-- The notification variant's `Config` (named `NotifConfig` here because the
asset-watcher variant's `Config` shares the Go name). -/
structure NotifConfig where
  orgID : String
  slackToken : String
  slackChannelID : String
  maxNotificationAgeSeconds : Int
  debug : Bool
deriving DecidableEq

def safetyMarginMaxNotificationAgeSeconds : Int := 600

/-- `getMandatoryEnvVar` from src/config.go: error when the variable is unset
or empty. -/
def getMandatoryEnvVar (env : String → Option String) (varName : String) :
    Except String String :=
  match env varName with
  | none => Except.error (varName ++ " environment variable is not defined or empty")
  | some value =>
    if value = "" then
      Except.error (varName ++ " environment variable is not defined or empty")
    else Except.ok value

/-- Go `strconv.ParseInt(s, 10, 64)` as `Option`: an optional sign, a
non-empty run of decimal digits, and the signed-64-bit range check. -/
def parseInt64 (s : String) : Option Int :=
  match s.data with
  | [] => none
  | c :: rest =>
    let signAndDigits : Bool × List Char :=
      if c = '-' then (true, rest)
      else if c = '+' then (false, rest)
      else (false, c :: rest)
    let neg := signAndDigits.1
    let digits := signAndDigits.2
    if digits.isEmpty then none
    else if digits.all Char.isDigit then
      let mag : Nat := digits.foldl (fun acc d => acc * 10 + (d.toNat - 48)) 0
      let value : Int := if neg then -(mag : Int) else (mag : Int)
      if -(2 ^ 63) ≤ value ∧ value ≤ 2 ^ 63 - 1 then some value else none
    else none

/-- `LoadConfig` from src/config.go, over an explicit environment.  The parse
error message elides the `%v`-formatted library error detail. -/
def loadConfig (env : String → Option String) : Except String NotifConfig :=
  match getMandatoryEnvVar env "ADV_NOTIF_ORG_ID" with
  | Except.error e => Except.error e
  | Except.ok orgID =>
    match getMandatoryEnvVar env "ADV_NOTIF_SLACK_TOKEN" with
    | Except.error e => Except.error e
    | Except.ok slackToken =>
      match getMandatoryEnvVar env "ADV_NOTIF_SLACK_CHANNEL_ID" with
      | Except.error e => Except.error e
      | Except.ok slackChannelID =>
        match getMandatoryEnvVar env "ADV_NOTIF_MAX_NOTIFICATION_AGE_SECONDS" with
        | Except.error e => Except.error e
        | Except.ok maxNotificationAgeSecondsStr =>
          match parseInt64 maxNotificationAgeSecondsStr with
          | none =>
            Except.error "ADV_NOTIF_MAX_NOTIFICATION_AGE_SECONDS must be a valid integer"
          | some maxNotificationAgeSeconds =>
            Except.ok
              { orgID := orgID
                slackToken := slackToken
                slackChannelID := slackChannelID
                maxNotificationAgeSeconds :=
                  maxNotificationAgeSeconds + safetyMarginMaxNotificationAgeSeconds
                debug := goToUpper ((env "ADV_NOTIF_DEBUG").getD "") = "TRUE" }

/-! ## Notification variant: processing and sending -/

/-- One part of a raw advisory notification message. -/
structure MessagePart where
  body : String
  createTime : Int
deriving DecidableEq

/-- A raw advisory notification; `createTime` is an epoch instant. -/
structure RawNotification where
  name : String
  subject : String
  createTime : Int
  parts : List MessagePart
deriving DecidableEq

/-- A processed advisory notification (field `OriginalName` as used by the
notification `main`, src/unnamed/part_008). -/
structure ProcessedNotification where
  originalName : String
  subject : String
  body : String
  createTime : Int
deriving DecidableEq

/-- `convertHTMLToMarkdown` from src/unnamed/part_002, with the external
html-to-markdown library abstracted as `convert` (its failure is `none`).  A
failure is logged at warning level (observability) and degrades to the
sentinel `"N/A"`; the function always returns a string. -/
def convertHTMLToMarkdown (convert : String → Option String)
    (htmlContent : String) (_notificationName : String) : String :=
  match convert htmlContent with
  | none => "N/A"
  | some markdown => markdown

/-- The fixed separator between converted message parts. -/
def partSeparator : String := "\n\n---\n\n"

/-- Modelled from the spec: `ProcessNotifications`, the NotificationProcessor
core, is not among the repository files here (only its caller in
src/unnamed/part_008 and the per-part converter in src/unnamed/part_002 are).
Per spec section 4.3: convert each part in order via `convertHTMLToMarkdown`,
join the converted bodies with `partSeparator`, and keep exactly the
notifications whose creation time is strictly after `now - maxAge`, applying
`maxAge` literally (no additional margin), preserving input order. -/
def processNotifications (convert : String → Option String) (now maxAge : Int)
    (notifications : List RawNotification) : List ProcessedNotification :=
  (notifications.filter (fun n => now - maxAge < n.createTime)).map (fun n =>
    { originalName := n.name
      subject := n.subject
      body := String.intercalate partSeparator
        (n.parts.map (fun p => convertHTMLToMarkdown convert p.body n.name))
      createTime := n.createTime })

/-- The send loop of the notification `main` (src/unnamed/part_008): every
notification is passed to `SendNotification` (`send p = some err` is a
delivery failure, which is logged and remembered in `sendErrors`; the loop
never stops early).  Returns the notifications attempted, in order, and the
final `sendErrors` flag. -/
def sendLoop (send : ProcessedNotification → Option String) :
    List ProcessedNotification → List ProcessedNotification × Bool
  | [] => ([], false)
  | p :: rest =>
    let sendResult := send p
    let next := sendLoop send rest
    (p :: next.1, sendResult.isSome || next.2)

/-- After the loop, the notification `main` exits 1 when `sendErrors` is set
(after a warning log) and returns normally (exit 0) otherwise. -/
def notifMainExitCode (send : ProcessedNotification → Option String)
    (ps : List ProcessedNotification) : Nat :=
  if (sendLoop send ps).2 then 1 else 0

/-- The spec's description of when the address attribute "exists and holds a
string": the attribute mapping is present, it has the key `"address"`, the
bound value is present (not nil), and that value is string-typed with payload
`s`. -/
def addrIsString (asset : AssetRecord) (s : String) : Prop :=
  ∃ st fields v,
    asset.additionalAttributes = some st ∧ st.fields = some fields ∧
      assocFind fields "address" = some (some v) ∧
      v.kind = some (PBKind.stringValue s)

/-! ## Concrete inputs (from the repository's own test matrix where one fits) -/

def timeEx : GoTime :=
  { year := 2024, month := 1, day := 10, hour := 12, minute := 0, second := 0 }

def cfgDefaults : Config :=
  { orgID := "test-org", debug := false, outputFormat := "table",
    excludeReserved := false, excludeProjects := "", includeProjects := "" }

/-- A record whose parent is a project and whose path ends in
`projects/my-project-123`. -/
def assetProj : AssetRecord :=
  { displayName := "Test Asset 1", location := "global", state := "ACTIVE",
    createTime := timeEx,
    parentAssetType := "cloudresourcemanager.googleapis.com/Project",
    parentFullResourceName := "//cloudresourcemanager.googleapis.com/projects/my-project-123",
    additionalAttributes := none }

def assetOtherParent : AssetRecord :=
  { assetProj with parentAssetType := "compute.googleapis.com/Instance",
                   parentFullResourceName := "//cloudresourcemanager.googleapis.com/projects/another-project-456" }

def assetProjEmptyPath : AssetRecord :=
  { assetProj with parentFullResourceName := "" }

def assetProjSlashes : AssetRecord :=
  { assetProj with parentFullResourceName := "//" }

def assetProjTrailing : AssetRecord :=
  { assetProj with parentFullResourceName := "//cloudresourcemanager.googleapis.com/projects/project-ending-slash/" }

def assetProjNoSlash : AssetRecord :=
  { assetProj with parentFullResourceName := "my-project-malformed" }

/-- A record whose `"address"` attribute holds the string `"192.168.1.1"`. -/
def assetWithIP : AssetRecord :=
  { assetProj with
      additionalAttributes :=
        some { fields := some [("address", some { kind := some (PBKind.stringValue "192.168.1.1") })] } }

def assetNoAttrs : AssetRecord :=
  { assetProj with additionalAttributes := none }

def envOk : String → Option String := fun name =>
  if name = "ADV_NOTIF_ORG_ID" then some "org-1"
  else if name = "ADV_NOTIF_SLACK_TOKEN" then some "tok-1"
  else if name = "ADV_NOTIF_SLACK_CHANNEL_ID" then some "chan-1"
  else if name = "ADV_NOTIF_MAX_NOTIFICATION_AGE_SECONDS" then some "100"
  else none

def envBadAge : String → Option String := fun name =>
  if name = "ADV_NOTIF_MAX_NOTIFICATION_AGE_SECONDS" then some "10x" else envOk name

def cfg700 : NotifConfig :=
  { orgID := "org-1", slackToken := "tok-1", slackChannelID := "chan-1",
    maxNotificationAgeSeconds := 700, debug := false }

/-- A converter that fails exactly on the body `"<bad>"`. -/
def converterEx : String → Option String := fun s =>
  if s = "<bad>" then none else some s

/-- A three-part notification whose middle part fails to convert. -/
def notificationEx : RawNotification :=
  { name := "notif-1", subject := "subj", createTime := 0,
    parts := [{ body := "A", createTime := 0 },
              { body := "<bad>", createTime := 0 },
              { body := "C", createTime := 0 }] }

def processedNotifEx : ProcessedNotification :=
  { originalName := "notif-1", subject := "subj", body := "A", createTime := 0 }

/-- A sender that fails exactly on `processedNotifEx`. -/
def senderEx : ProcessedNotification → Option String := fun p =>
  if p = processedNotifEx then some "delivery failed" else none

/-! # Theorems -/

/-! ## Send loop (C9) -/

lemma sendLoop_fst (send : ProcessedNotification → Option String) :
    ∀ ps : List ProcessedNotification, (sendLoop send ps).1 = ps := by
  intro ps
  induction ps with
  | nil => rfl
  | cons p rest ih => simp [sendLoop, ih]

lemma sendLoop_snd (send : ProcessedNotification → Option String) :
    ∀ ps : List ProcessedNotification,
      (sendLoop send ps).2 = ps.any (fun p => (send p).isSome) := by
  intro ps
  induction ps with
  | nil => rfl
  | cons p rest ih => simp [sendLoop, ih]

/-- C9: the send loop of the notification `main` attempts delivery of every
notification, in order, even when some sends fail, and the process exit
status is non-zero if and only if at least one send failed — the failure flag
is consulted only after the loop has attempted all sends. -/
theorem sendLoop_attempts_all_and_aggregates :
    ∀ (send : ProcessedNotification → Option String)
      (ps : List ProcessedNotification),
      (sendLoop send ps).1 = ps ∧
      (notifMainExitCode send ps ≠ 0 ↔ ∃ p ∈ ps, (send p).isSome = true) := by
  intro send ps
  refine ⟨sendLoop_fst send ps, ?_⟩
  unfold notifMainExitCode
  rw [sendLoop_snd]
  by_cases h : ps.any (fun p => (send p).isSome) = true
  · rw [if_pos h]
    exact iff_of_true one_ne_zero (List.any_eq_true.mp h)
  · rw [if_neg h]
    exact iff_of_false (fun hh => hh rfl) (fun he => h (List.any_eq_true.mpr he))

/-- Concrete run of C9: with a sender that fails on the one notification sent,
every notification is still attempted and the exit status is non-zero. -/
theorem sendLoop_attempts_all_witness :
    (sendLoop senderEx [processedNotifEx]).1 = [processedNotifEx] ∧
      (notifMainExitCode senderEx [processedNotifEx] ≠ 0 ↔
        ∃ p ∈ [processedNotifEx], (senderEx p).isSome = true) :=
  sendLoop_attempts_all_and_aggregates senderEx [processedNotifEx]

/-! ## Output-format dispatch (C10) -/

/-- C10: a format string that equals `table` or `json` only after lowercasing
passes `GetConfig`'s validation, but `outputToStdOut` matches the raw string
case-sensitively, so any value other than the exact strings `"table"` and
`"json"` falls through to the default arm (which reports an unknown format and
renders the table); JSON output is produced only for the exact string
`"json"`. -/
theorem outputFormat_case_mismatch :
    ∀ s : String,
      ((goToLower s = "table" ∨ goToLower s = "json") →
        outputFormatAccepted s = true) ∧
      (s ≠ "json" → outputToStdOut s ≠ RenderChoice.json) ∧
      (s ≠ "table" → s ≠ "json" →
        outputToStdOut s = RenderChoice.unknownThenTable) ∧
      (outputFormatAccepted "JSON" = true ∧
        outputToStdOut "JSON" = RenderChoice.unknownThenTable ∧
        outputFormatAccepted "Table" = true ∧
        outputToStdOut "Table" = RenderChoice.unknownThenTable) := by
  intro s
  refine ⟨?_, ?_, ?_, by decide⟩
  · intro h
    unfold outputFormatAccepted
    rcases h with h | h <;> simp [h]
  · intro hs
    unfold outputToStdOut
    by_cases h1 : s = "table"
    · rw [if_pos h1]
      decide
    · rw [if_neg h1, if_neg hs]
      decide
  · intro h1 h2
    unfold outputToStdOut
    rw [if_neg h1, if_neg h2]

/-- Concrete run of C10 at the value `"JSON"`: validation accepts it, yet the
dispatcher renders the table via the unknown-format arm, not JSON. -/
theorem outputFormat_case_mismatch_witness :
    outputFormatAccepted "JSON" = true ∧
      outputToStdOut "JSON" ≠ RenderChoice.json ∧
      outputToStdOut "JSON" = RenderChoice.unknownThenTable :=
  ⟨(outputFormat_case_mismatch "JSON").1 (Or.inr (by decide)),
   (outputFormat_case_mismatch "JSON").2.1 (by decide),
   (outputFormat_case_mismatch "JSON").2.2.1 (by decide) (by decide)⟩

/-! ## Asset-watcher `main` on a fetch error (C2) -/

/-- C2 is violated by src/unnamed/part_009: this theorem evaluates the
embedded `main` at a failing input.  When the iterator reports a transport
error before any record, `main` logs the error but does not exit; it still
renders the (empty) table output, and the process exit status is 0 — not the
single-error-line, immediate non-zero exit, no-rendered-output behavior the
spec describes. -/
theorem assetMain_error_still_renders :
    (assetWatcherMain cfgDefaults [] (some "transport error")).effects =
      [MainEffect.logError
        "failed to process assets: failed to create asset client: transport error",
       MainEffect.render [] "table"] ∧
    (assetWatcherMain cfgDefaults [] (some "transport error")).exitCode = 0 := by
  constructor <;> rfl

/-! ## IP-address extraction (C6) -/

/-- C6: `getIPAddress` returns the stored string verbatim exactly when the
attribute mapping is present, has the key `"address"`, and binds it to a
present string-typed value; in every other case (mapping absent, key absent,
value nil, value not string-typed) it returns the sentinel `"N/A"`. -/
theorem getIPAddress_spec :
    ∀ asset : AssetRecord,
      (∀ s, addrIsString asset s → getIPAddress asset = s) ∧
      ((∀ s, ¬ addrIsString asset s) → getIPAddress asset = "N/A") := by
  intro asset
  constructor
  · rintro s ⟨st, fields, v, h1, h2, h3, h4⟩
    simp only [getIPAddress, structFields, h1, h2, h3, h4]
  · intro hno
    cases hA : asset.additionalAttributes with
    | none => simp only [getIPAddress, structFields, hA]
    | some st =>
      cases hF : st.fields with
      | none => simp only [getIPAddress, structFields, hA, hF]
      | some fields =>
        cases hFind : assocFind fields "address" with
        | none => simp only [getIPAddress, structFields, hA, hF, hFind]
        | some ov =>
          cases ov with
          | none => simp only [getIPAddress, structFields, hA, hF, hFind]
          | some v =>
            cases hK : v.kind with
            | none => simp only [getIPAddress, structFields, hA, hF, hFind, hK]
            | some k =>
              cases k with
              | stringValue s =>
                exact absurd ⟨st, fields, v, hA, hF, hFind, hK⟩ (hno s)
              | nullValue => simp only [getIPAddress, structFields, hA, hF, hFind, hK]
              | numberValue => simp only [getIPAddress, structFields, hA, hF, hFind, hK]
              | boolValue b => simp only [getIPAddress, structFields, hA, hF, hFind, hK]
              | structValue => simp only [getIPAddress, structFields, hA, hF, hFind, hK]
              | listValue => simp only [getIPAddress, structFields, hA, hF, hFind, hK]

/-- Concrete runs of C6: a present string-typed `"address"` attribute is
returned verbatim; an absent attribute mapping yields the sentinel. -/
theorem getIPAddress_spec_witness :
    getIPAddress assetWithIP = "192.168.1.1" ∧ getIPAddress assetNoAttrs = "N/A" :=
  ⟨(getIPAddress_spec assetWithIP).1 "192.168.1.1" ⟨_, _, _, rfl, rfl, by decide, rfl⟩,
   (getIPAddress_spec assetNoAttrs).2 (by
     rintro s ⟨st, fields, v, h1, -⟩
     exact Option.noConfusion h1)⟩

/-! ## Notification configuration: the safety margin (C7) -/

lemma getMandatoryEnvVar_ok {env : String → Option String} {varName value : String}
    (h : getMandatoryEnvVar env varName = Except.ok value) : env varName = some value := by
  unfold getMandatoryEnvVar at h
  cases he : env varName with
  | none =>
    rw [he] at h
    simp at h
  | some v =>
    rw [he] at h
    by_cases hv : v = ""
    · simp [hv] at h
    · simp [hv] at h
      rw [h]

/-- C7 (reason: spec-modelled for the processor half — the
NotificationProcessor core is absent from src/ and `processNotifications` is
modelled from the spec): the configuration layer stores the parsed
max-notification-age plus the fixed 600-second safety margin; a value that
does not parse as a 64-bit integer makes `LoadConfig` fail; and the core
applies the received `maxAge` threshold literally, with no further margin. -/
theorem loadConfig_safety_margin :
    (∀ (env : String → Option String) (s : String) (a : Int) (cfg : NotifConfig),
        env "ADV_NOTIF_MAX_NOTIFICATION_AGE_SECONDS" = some s →
        parseInt64 s = some a →
        loadConfig env = Except.ok cfg →
        cfg.maxNotificationAgeSeconds = a + 600) ∧
    (∀ (env : String → Option String) (s : String),
        env "ADV_NOTIF_MAX_NOTIFICATION_AGE_SECONDS" = some s →
        parseInt64 s = none →
        ∀ cfg : NotifConfig, loadConfig env ≠ Except.ok cfg) ∧
    (∀ (convert : String → Option String) (now maxAge : Int)
        (notifications : List RawNotification),
        (processNotifications convert now maxAge notifications).map
            ProcessedNotification.createTime =
          (notifications.filter (fun n => now - maxAge < n.createTime)).map
            RawNotification.createTime) := by
  refine ⟨?_, ?_, ?_⟩
  · intro env s a cfg h1 h2 h3
    unfold loadConfig at h3
    split at h3
    · exact Except.noConfusion h3
    split at h3
    · exact Except.noConfusion h3
    split at h3
    · exact Except.noConfusion h3
    split at h3
    · exact Except.noConfusion h3
    split at h3
    · exact Except.noConfusion h3
    rename_i x1 maxStr hMand x2 m hParse
    have hEnv := getMandatoryEnvVar_ok hMand
    rw [h1] at hEnv
    rw [Option.some.injEq] at hEnv
    rw [← hEnv] at hParse
    rw [h2] at hParse
    rw [Option.some.injEq] at hParse
    rw [Except.ok.injEq] at h3
    rw [← h3, hParse]
    rfl
  · intro env s h1 h2 cfg h3
    unfold loadConfig at h3
    split at h3
    · exact Except.noConfusion h3
    split at h3
    · exact Except.noConfusion h3
    split at h3
    · exact Except.noConfusion h3
    split at h3
    · exact Except.noConfusion h3
    split at h3
    · exact Except.noConfusion h3
    rename_i x1 maxStr hMand x2 m hParse
    have hEnv := getMandatoryEnvVar_ok hMand
    rw [h1] at hEnv
    rw [Option.some.injEq] at hEnv
    rw [← hEnv] at hParse
    rw [h2] at hParse
    exact Option.noConfusion hParse
  · intro convert now maxAge notifications
    unfold processNotifications
    rw [List.map_map]
    rfl

/-- Concrete runs of C7: a max age of 100 seconds is stored as 700; the
unparsable value `"10x"` makes `LoadConfig` fail. -/
theorem loadConfig_safety_margin_witness :
    cfg700.maxNotificationAgeSeconds = 100 + 600 ∧
      loadConfig envBadAge ≠ Except.ok cfg700 :=
  ⟨loadConfig_safety_margin.1 envOk "100" 100 cfg700 rfl rfl rfl,
   loadConfig_safety_margin.2.1 envBadAge "10x" rfl rfl cfg700⟩

/-! ## Per-part HTML conversion (C8) -/

/-- C8 (reason: spec-modelled for the enclosing processor — the
NotificationProcessor core is absent from src/ and `processNotifications` is
modelled from the spec): the per-part converter is total, returning a string
for every input — the sentinel `"N/A"` when the external conversion fails,
the converted markdown otherwise — and a failing part never causes its
notification to be dropped: the notifications that survive processing do not
depend on the converter, and a failing middle part appears as `"N/A"` in
position in the joined body. -/
theorem convertHTML_degrades_per_part :
    ∀ (convert : String → Option String) (htmlContent notificationName : String),
      (convert htmlContent = none →
        convertHTMLToMarkdown convert htmlContent notificationName = "N/A") ∧
      (∀ markdown, convert htmlContent = some markdown →
        convertHTMLToMarkdown convert htmlContent notificationName = markdown) ∧
      (∀ (convert2 : String → Option String) (now maxAge : Int)
          (notifications : List RawNotification),
          (processNotifications convert now maxAge notifications).map
              ProcessedNotification.originalName =
            (processNotifications convert2 now maxAge notifications).map
              ProcessedNotification.originalName) ∧
      (processNotifications converterEx 0 10 [notificationEx]).map
          ProcessedNotification.body = ["A\n\n---\n\nN/A\n\n---\n\nC"] := by
  intro convert htmlContent notificationName
  refine ⟨?_, ?_, ?_, by decide⟩
  · intro h
    unfold convertHTMLToMarkdown
    rw [h]
  · intro markdown h
    unfold convertHTMLToMarkdown
    rw [h]
  · intro convert2 now maxAge notifications
    unfold processNotifications
    rw [List.map_map, List.map_map]
    rfl

/-- Concrete runs of C8: the failing body degrades to the sentinel, a
succeeding body converts verbatim. -/
theorem convertHTML_degrades_per_part_witness :
    convertHTMLToMarkdown converterEx "<bad>" "notif-1" = "N/A" ∧
      convertHTMLToMarkdown converterEx "A" "notif-1" = "A" :=
  ⟨(convertHTML_degrades_per_part converterEx "<bad>" "notif-1").1 (by decide),
   (convertHTML_degrades_per_part converterEx "A" "notif-1").2.1 "A" (by decide)⟩

/-! ## Trimming lemmas -/

lemma dropWhile_head_false {α} (p : α → Bool) :
    ∀ (l : List α) (a : α), (l.dropWhile p).head? = some a → p a = false := by
  intro l
  induction l with
  | nil => intro a h; exact Option.noConfusion h
  | cons x t ih =>
    intro a h
    by_cases hx : p x = true
    · rw [List.dropWhile_cons_of_pos hx] at h
      exact ih a h
    · rw [Bool.not_eq_true] at hx
      rw [List.dropWhile_cons_of_neg (by rw [hx]; exact Bool.false_ne_true)] at h
      rw [List.head?_cons, Option.some.injEq] at h
      rw [h] at hx
      exact hx

lemma dropWhile_eq_self_of_head {α} (p : α → Bool) (l : List α)
    (h : ∀ a, l.head? = some a → p a = false) : l.dropWhile p = l := by
  cases l with
  | nil => rfl
  | cons x t =>
    have hx := h x rfl
    exact List.dropWhile_cons_of_neg (by rw [hx]; exact Bool.false_ne_true)

lemma trimChars_head (l : List Char) (a : Char)
    (h : (trimChars l).head? = some a) : goIsSpace a = false := by
  unfold trimChars at h
  rw [List.head?_reverse] at h
  -- h : the last element of dropWhile p ((dropWhile p l).reverse) is a
  have hsplit := List.takeWhile_append_dropWhile goIsSpace (l.dropWhile goIsSpace).reverse
  have hne : (l.dropWhile goIsSpace).reverse.dropWhile goIsSpace ≠ [] := by
    intro he
    rw [he] at h
    exact Option.noConfusion h
  have hlast :
      ((l.dropWhile goIsSpace).reverse.takeWhile goIsSpace ++
        (l.dropWhile goIsSpace).reverse.dropWhile goIsSpace).getLast? =
        ((l.dropWhile goIsSpace).reverse.dropWhile goIsSpace).getLast? :=
    List.getLast?_append_of_ne_nil _ hne
  rw [hsplit] at hlast
  rw [← hlast, List.getLast?_reverse] at h
  exact dropWhile_head_false goIsSpace l a h

lemma trimChars_getLast (l : List Char) (a : Char)
    (h : (trimChars l).getLast? = some a) : goIsSpace a = false := by
  unfold trimChars at h
  rw [List.getLast?_reverse] at h
  exact dropWhile_head_false goIsSpace _ a h

lemma trimChars_fix (x : List Char)
    (h1 : x.dropWhile goIsSpace = x)
    (h2 : x.reverse.dropWhile goIsSpace = x.reverse) : trimChars x = x := by
  unfold trimChars
  rw [h1, h2, List.reverse_reverse]

lemma trimChars_idem (l : List Char) : trimChars (trimChars l) = trimChars l := by
  apply trimChars_fix
  · exact dropWhile_eq_self_of_head _ _ (trimChars_head l)
  · apply dropWhile_eq_self_of_head
    intro a ha
    rw [List.head?_reverse] at ha
    exact trimChars_getLast l a ha

lemma goTrimSpace_idem (s : String) : goTrimSpace (goTrimSpace s) = goTrimSpace s := by
  unfold goTrimSpace
  rw [trimChars_idem]

lemma trimChars_eq_nil_iff (l : List Char) :
    trimChars l = [] ↔ ∀ a ∈ l, goIsSpace a = true := by
  unfold trimChars
  rw [List.reverse_eq_nil_iff, List.dropWhile_eq_nil_iff]
  constructor
  · intro h a ha
    have hsplit := List.takeWhile_append_dropWhile goIsSpace l
    rw [← hsplit] at ha
    rcases List.mem_append.mp ha with hmem | hmem
    · exact List.mem_takeWhile_imp hmem
    · exact h a (List.mem_reverse.mpr hmem)
  · intro h a ha
    have hmem : a ∈ l.dropWhile goIsSpace := List.mem_reverse.mp ha
    have hsplit := List.takeWhile_append_dropWhile goIsSpace l
    exact h a (by rw [← hsplit]; exact List.mem_append.mpr (Or.inr hmem))

/-! ## Splitting lemmas -/

lemma goSplitNE_of_none {c : Char} {cs l : List Char}
    (h : firstIdx (c :: cs) l = none) : goSplitNE c cs l = [l] := by
  conv_lhs => rw [goSplitNE.eq_def]
  split
  · rfl
  · rename_i i heq
    rw [h] at heq
    exact Option.noConfusion heq

lemma goSplitNE_of_some {c : Char} {cs l : List Char} {i : Nat}
    (h : firstIdx (c :: cs) l = some i) :
    goSplitNE c cs l = l.take i :: goSplitNE c cs (l.drop (i + (cs.length + 1))) := by
  conv_lhs => rw [goSplitNE.eq_def]
  split
  · rename_i heq
    rw [h] at heq
    exact Option.noConfusion heq
  · rename_i j heq
    rw [h] at heq
    rw [Option.some.injEq] at heq
    rw [heq]

lemma mem_goSplitNE_subset (c : Char) (cs : List Char) :
    ∀ (n : Nat) (l : List Char), l.length ≤ n →
      ∀ x ∈ goSplitNE c cs l, ∀ a ∈ x, a ∈ l := by
  intro n
  induction n with
  | zero =>
    intro l hl x hx a ha
    have hnil : l = [] := List.length_eq_zero.mp (Nat.le_zero.mp hl)
    subst hnil
    rw [goSplitNE_of_none (show firstIdx (c :: cs) [] = none from rfl)] at hx
    rw [List.mem_singleton] at hx
    subst hx
    exact ha
  | succ n ih =>
    intro l hl x hx a ha
    cases h : firstIdx (c :: cs) l with
    | none =>
      rw [goSplitNE_of_none h] at hx
      rw [List.mem_singleton] at hx
      subst hx
      exact ha
    | some i =>
      rw [goSplitNE_of_some h] at hx
      rcases List.mem_cons.mp hx with hx | hx
      · subst hx
        exact List.take_subset i l ha
      · have hne : l ≠ [] := by
          intro he
          subst he
          exact Option.noConfusion h
        have hlen : (l.drop (i + (cs.length + 1))).length ≤ n := by
          rw [List.length_drop]
          have hpos : 0 < l.length := List.length_pos.mpr hne
          omega
        exact List.drop_subset _ l (ih _ hlen x hx a ha)

lemma firstIdx_single_none {c : Char} :
    ∀ l : List Char, firstIdx [c] l = none → c ∉ l := by
  intro l
  induction l with
  | nil => intro _ h; exact List.not_mem_nil c h
  | cons a t ih =>
    intro h
    by_cases hca : c = a
    · subst hca
      have : List.isPrefixOf [c] (c :: t) = true := by
        simp [List.isPrefixOf]
      unfold firstIdx at h
      rw [if_pos this] at h
      exact Option.noConfusion h
    · have hpre : List.isPrefixOf [c] (a :: t) = false := by
        simp [List.isPrefixOf]
        intro hc
        exact absurd hc hca
      unfold firstIdx at h
      rw [hpre] at h
      simp only [Bool.false_eq_true, if_false, Option.map_eq_none'] at h
      intro hmem
      rcases List.mem_cons.mp hmem with hx | hx
      · exact hca hx
      · exact ih h hx

lemma firstIdx_single_some {c : Char} :
    ∀ (l : List Char) (i : Nat), firstIdx [c] l = some i →
      ∃ xs ys, l = xs ++ c :: ys ∧ xs.length = i ∧ c ∉ xs := by
  intro l
  induction l with
  | nil => intro i h; exact Option.noConfusion h
  | cons a t ih =>
    intro i h
    by_cases hca : c = a
    · subst hca
      have hpre : List.isPrefixOf [c] (c :: t) = true := by
        simp [List.isPrefixOf]
      unfold firstIdx at h
      rw [if_pos hpre, Option.some.injEq] at h
      exact ⟨[], t, rfl, by rw [← h]; rfl, List.not_mem_nil c⟩
    · have hpre : List.isPrefixOf [c] (a :: t) = false := by
        simp [List.isPrefixOf]
        intro hc
        exact absurd hc hca
      unfold firstIdx at h
      rw [hpre] at h
      simp only [Bool.false_eq_true, if_false, Option.map_eq_some'] at h
      obtain ⟨j, hj, hji⟩ := h
      obtain ⟨xs, ys, ht, hlen, hni⟩ := ih j hj
      refine ⟨a :: xs, ys, by rw [List.cons_append, ht], by simp [hlen, hji], ?_⟩
      intro hmem
      rcases List.mem_cons.mp hmem with hx | hx
      · exact hca hx
      · exact hni hx

lemma splitOnChar_exists_cons (c : Char) :
    ∀ l : List Char, ∃ x xs, splitOnChar c l = x :: xs := by
  intro l
  induction l with
  | nil => exact ⟨[], [], rfl⟩
  | cons a t ih =>
    obtain ⟨x, xs, hx⟩ := ih
    by_cases hac : a = c
    · exact ⟨[], splitOnChar c t, by rw [splitOnChar, if_pos hac]⟩
    · exact ⟨a :: x, xs, by rw [splitOnChar, if_neg hac, hx]⟩

lemma splitOnChar_of_not_mem {c : Char} :
    ∀ l : List Char, c ∉ l → splitOnChar c l = [l] := by
  intro l
  induction l with
  | nil => intro _; rfl
  | cons a t ih =>
    intro h
    have hac : a ≠ c := fun he => h (by rw [he]; exact List.mem_cons_self c t)
    have ht : c ∉ t := fun hm => h (List.mem_cons_of_mem a hm)
    rw [splitOnChar, if_neg hac, ih ht]

lemma splitOnChar_singleton {c : Char} :
    ∀ l x, splitOnChar c l = [x] → c ∉ l ∧ x = l := by
  intro l
  induction l with
  | nil =>
    intro x h
    rw [splitOnChar] at h
    rw [List.cons.injEq] at h
    exact ⟨List.not_mem_nil c, h.1.symm⟩
  | cons a t ih =>
    intro x h
    by_cases hac : a = c
    · rw [splitOnChar, if_pos hac] at h
      rw [List.cons.injEq] at h
      obtain ⟨y, ys, hy⟩ := splitOnChar_exists_cons c t
      rw [hy] at h
      exact absurd h.2 (List.cons_ne_nil y ys)
    · rw [splitOnChar, if_neg hac] at h
      obtain ⟨y, ys, hy⟩ := splitOnChar_exists_cons c t
      rw [hy] at h
      rw [List.cons.injEq] at h
      obtain ⟨hxay, hys⟩ := h
      subst hys
      obtain ⟨hct, hyt⟩ := ih y hy
      constructor
      · intro hmem
        rcases List.mem_cons.mp hmem with hm | hm
        · exact hac hm.symm
        · exact hct hm
      · rw [← hxay, hyt]

lemma splitOnChar_append {c : Char} :
    ∀ (xs ys : List Char), c ∉ xs →
      splitOnChar c (xs ++ c :: ys) = xs :: splitOnChar c ys := by
  intro xs
  induction xs with
  | nil =>
    intro ys _
    rw [List.nil_append, splitOnChar, if_pos rfl]
  | cons a xs ih =>
    intro ys h
    have hac : a ≠ c := fun he => h (by rw [he]; exact List.mem_cons_self c xs)
    have hxs : c ∉ xs := fun hm => h (List.mem_cons_of_mem a hm)
    rw [List.cons_append, splitOnChar, if_neg hac, ih ys hxs]

lemma goSplitNE_single_aux (c : Char) :
    ∀ (n : Nat) (l : List Char), l.length ≤ n → goSplitNE c [] l = splitOnChar c l := by
  intro n
  induction n with
  | zero =>
    intro l hl
    have hnil : l = [] := List.length_eq_zero.mp (Nat.le_zero.mp hl)
    subst hnil
    rw [goSplitNE_of_none (show firstIdx [c] [] = none from rfl)]
    rfl
  | succ n ih =>
    intro l hl
    cases h : firstIdx [c] l with
    | none =>
      rw [goSplitNE_of_none h, splitOnChar_of_not_mem l (firstIdx_single_none l h)]
    | some i =>
      obtain ⟨xs, ys, hsplit, hlen, hni⟩ := firstIdx_single_some l i h
      subst hsplit
      rw [goSplitNE_of_some h]
      have htake : (xs ++ c :: ys).take i = xs := by
        rw [← hlen]
        exact List.take_left xs (c :: ys)
      have hdrop : (xs ++ c :: ys).drop (i + (List.length ([] : List Char) + 1)) = ys := by
        have hre : xs ++ c :: ys = (xs ++ [c]) ++ ys := by
          rw [List.append_assoc]
          rfl
        have hlen2 : (xs ++ [c]).length = i + (List.length ([] : List Char) + 1) := by
          rw [List.length_append, hlen]
          rfl
        rw [hre, ← hlen2]
        exact List.drop_left (xs ++ [c]) ys
      rw [htake, hdrop, splitOnChar_append xs ys hni]
      have hys : ys.length ≤ n := by
        have := hl
        rw [List.length_append, List.length_cons] at this
        omega
      rw [ih ys hys]

lemma goSplitNE_single (c : Char) (l : List Char) :
    goSplitNE c [] l = splitOnChar c l :=
  goSplitNE_single_aux c l.length l (Nat.le_refl _)

/-! ## The trailing segment of a split -/

lemma takeWhile_append_stop {α} (p : α → Bool) (b : α) (hb : p b = false) :
    ∀ (xs ys : List α), (xs ++ b :: ys).takeWhile p = xs.takeWhile p := by
  intro xs ys
  induction xs with
  | nil =>
    rw [List.nil_append]
    rw [List.takeWhile_cons]
    rw [hb]
    rfl
  | cons a xs ih =>
    rw [List.cons_append, List.takeWhile_cons, List.takeWhile_cons]
    by_cases hpa : p a = true
    · rw [hpa, ih]
    · rw [Bool.not_eq_true] at hpa
      rw [hpa]
      rfl

lemma takeWhile_append_of_exists {α} (p : α → Bool) :
    ∀ (xs ys : List α), (∃ b ∈ xs, p b = false) →
      (xs ++ ys).takeWhile p = xs.takeWhile p := by
  intro xs
  induction xs with
  | nil =>
    intro ys h
    obtain ⟨b, hb, -⟩ := h
    exact absurd hb (List.not_mem_nil b)
  | cons a xs ih =>
    intro ys h
    rw [List.cons_append, List.takeWhile_cons, List.takeWhile_cons]
    by_cases hpa : p a = true
    · rw [hpa]
      obtain ⟨b, hb, hpb⟩ := h
      have hbxs : b ∈ xs := by
        rcases List.mem_cons.mp hb with he | hm
        · rw [he] at hpb
          rw [hpa] at hpb
          exact Bool.noConfusion hpb
        · exact hm
      rw [ih ys ⟨b, hbxs, hpb⟩]
    · rw [Bool.not_eq_true] at hpa
      rw [hpa]
      rfl

lemma afterLastChars_cons_sep (c : Char) (t : List Char) :
    afterLastChars c (c :: t) = afterLastChars c t := by
  unfold afterLastChars
  rw [List.reverse_cons]
  rw [takeWhile_append_stop _ c (by simp) t.reverse []]

lemma afterLastChars_not_mem {c : Char} {l : List Char} (h : c ∉ l) :
    afterLastChars c l = l := by
  unfold afterLastChars
  have : l.reverse.takeWhile (fun a => a != c) = l.reverse := by
    rw [List.takeWhile_eq_self_iff]
    intro x hx
    have hxl : x ∈ l := List.mem_reverse.mp hx
    have : x ≠ c := fun he => h (he ▸ hxl)
    simp [this]
  rw [this, List.reverse_reverse]

lemma afterLastChars_cons_of_mem {c : Char} (a : Char) {t : List Char} (h : c ∈ t) :
    afterLastChars c (a :: t) = afterLastChars c t := by
  unfold afterLastChars
  rw [List.reverse_cons]
  rw [takeWhile_append_of_exists _ t.reverse [a]
    ⟨c, List.mem_reverse.mpr h, by simp⟩]

lemma splitOnChar_getLast (c : Char) :
    ∀ l : List Char, (splitOnChar c l).getLast? = some (afterLastChars c l) := by
  intro l
  induction l with
  | nil => rfl
  | cons a t ih =>
    by_cases hac : a = c
    · subst hac
      rw [splitOnChar, if_pos rfl]
      obtain ⟨x, xs, hS⟩ := splitOnChar_exists_cons a t
      rw [hS]
      rw [List.getLast?_cons_cons]
      rw [← hS, ih, afterLastChars_cons_sep]
    · rw [splitOnChar, if_neg hac]
      obtain ⟨x, xs, hS⟩ := splitOnChar_exists_cons c t
      rw [hS]
      cases xs with
      | nil =>
        obtain ⟨hct, hxt⟩ := splitOnChar_singleton t x hS
        subst hxt
        have hcl : c ∉ a :: x := by
          intro hm
          rcases List.mem_cons.mp hm with he | hm2
          · exact hac he.symm
          · exact hct hm2
        rw [afterLastChars_not_mem hcl]
        rfl
      | cons y ys =>
        rw [List.getLast?_cons_cons]
        rw [hS, List.getLast?_cons_cons] at ih
        rw [ih]
        have hct : c ∈ t := by
          by_contra hnc
          rw [splitOnChar_of_not_mem t hnc] at hS
          rw [List.cons.injEq] at hS
          exact absurd hS.2.symm (List.cons_ne_nil y ys)
        rw [afterLastChars_cons_of_mem a hct]

lemma goSplit_single (c : Char) (s : String) :
    goSplit s (String.mk [c]) = (splitOnChar c s.data).map String.mk := by
  have h : goSplit s (String.mk [c]) = (goSplitNE c [] s.data).map String.mk := rfl
  rw [h, goSplitNE_single]

lemma goSplit_comma (s : String) :
    goSplit s "," = (splitOnChar ',' s.data).map String.mk := by
  have h : ("," : String) = String.mk [','] := rfl
  rw [h, goSplit_single]

lemma goSplit_slash (s : String) :
    goSplit s "/" = (splitOnChar '/' s.data).map String.mk := by
  have h : ("/" : String) = String.mk ['/'] := rfl
  rw [h, goSplit_single]

lemma chars_of_goSplit (s sep : String) :
    ∀ piece ∈ goSplit s sep, ∀ ch ∈ piece.data, ch ∈ s.data := by
  unfold goSplit
  split
  · intro piece hpiece ch hch
    obtain ⟨c0, hc0, rfl⟩ := List.mem_map.mp hpiece
    have : ch = c0 := by simpa using hch
    rw [this]
    exact hc0
  · rename_i c cs heq
    intro piece hpiece ch hch
    obtain ⟨x, hx, rfl⟩ := List.mem_map.mp hpiece
    exact mem_goSplitNE_subset c cs s.data.length s.data (Nat.le_refl _) x hx ch
      (by simpa using hch)

/-! ## Project-id derivation (C4) -/

lemma getProjectID_eq (asset : AssetRecord) :
    getProjectID asset =
      if asset.parentAssetType = "cloudresourcemanager.googleapis.com/Project"
      then afterLastSlash asset.parentFullResourceName else "N/A" := by
  unfold getProjectID
  by_cases h : asset.parentAssetType = "cloudresourcemanager.googleapis.com/Project"
  · rw [if_pos h, if_pos h]
    rw [goSplit_slash]
    obtain ⟨x, xs, hS⟩ := splitOnChar_exists_cons '/' asset.parentFullResourceName.data
    have hlen : ((splitOnChar '/' asset.parentFullResourceName.data).map String.mk).length > 0 := by
      rw [hS]
      simp
    rw [if_pos hlen]
    rw [List.getLastD_eq_getLast?, List.getLast?_map, splitOnChar_getLast]
    rfl
  · rw [if_neg h, if_neg h]

lemma afterLastSlash_no_slash (s : String) (h : '/' ∉ s.data) : afterLastSlash s = s := by
  unfold afterLastSlash
  rw [afterLastChars_not_mem h]

/-- C4: `getProjectID` is `"N/A"` for every non-project parent type, and, for a
project-typed parent, is exactly the substring after the last `/` of the
parent resource path — so the empty path yields `""`, a path of only
delimiters yields `""`, a trailing delimiter yields `""`, and a path with no
`/` is returned unchanged. -/
theorem getProjectID_spec :
    (∀ asset : AssetRecord,
        getProjectID asset =
          if asset.parentAssetType = "cloudresourcemanager.googleapis.com/Project"
          then afterLastSlash asset.parentFullResourceName else "N/A") ∧
    (∀ s : String, '/' ∉ s.data → afterLastSlash s = s) ∧
    getProjectID assetProjEmptyPath = "" ∧
    getProjectID assetProjSlashes = "" ∧
    getProjectID assetProjTrailing = "" ∧
    getProjectID assetProjNoSlash = "my-project-malformed" ∧
    getProjectID assetOtherParent = "N/A" ∧
    getProjectID assetProj = "my-project-123" := by
  refine ⟨getProjectID_eq, afterLastSlash_no_slash, ?_, ?_, ?_, ?_, ?_, ?_⟩
  all_goals rw [getProjectID_eq]
  all_goals decide

/-- Concrete run of C4's no-delimiter clause: a path with no `/` is returned
unchanged. -/
theorem getProjectID_spec_witness :
    afterLastSlash "my-project-malformed" = "my-project-malformed" :=
  getProjectID_spec.2.1 "my-project-malformed" (by decide)

/-! ## `splitString` (C5) -/

lemma splitString_eq_filter (s sep : String) :
    splitString s sep =
      ((goSplit s sep).map goTrimSpace).filter (fun piece => piece != "") := by
  unfold splitString
  by_cases h : goTrimSpace s = ""
  · rw [if_pos h]
    symm
    rw [List.filter_eq_nil_iff]
    intro piece hpiece
    obtain ⟨y, hy, rfl⟩ := List.mem_map.mp hpiece
    have hdata : trimChars s.data = [] := by
      have := congrArg String.data h
      simpa [goTrimSpace] using this
    have hall : ∀ a ∈ s.data, goIsSpace a = true := (trimChars_eq_nil_iff s.data).mp hdata
    have hally : ∀ a ∈ y.data, goIsSpace a = true :=
      fun a ha => hall a (chars_of_goSplit s sep y hy a ha)
    have hynil : trimChars y.data = [] := (trimChars_eq_nil_iff y.data).mpr hally
    simp [goTrimSpace, hynil]
  · rw [if_neg h]

/-- C5: `splitString` returns exactly the pieces of the split that are
non-empty after trimming, in input order; every returned piece is non-empty
and already trimmed (hence not whitespace-only); a blank or whitespace-only
input yields the empty sequence; and the three concrete examples of the spec
hold. -/
theorem splitString_spec :
    (∀ s sep : String,
        splitString s sep =
          ((goSplit s sep).map goTrimSpace).filter (fun piece => piece != "")) ∧
    (∀ s sep piece : String, piece ∈ splitString s sep →
        piece ≠ "" ∧ goTrimSpace piece = piece) ∧
    (∀ s sep : String, goTrimSpace s = "" → splitString s sep = []) ∧
    splitString "" "," = [] ∧
    splitString ",,," "," = [] ∧
    splitString "  a , b  ,c" "," = ["a", "b", "c"] := by
  refine ⟨splitString_eq_filter, ?_, ?_, ?_, ?_, ?_⟩
  · intro s sep piece hmem
    rw [splitString_eq_filter] at hmem
    have h2 := List.of_mem_filter hmem
    have h1 := List.mem_of_mem_filter hmem
    obtain ⟨y, hy, rfl⟩ := List.mem_map.mp h1
    refine ⟨?_, goTrimSpace_idem y⟩
    intro he
    rw [he] at h2
    exact absurd h2 (by decide)
  · intro s sep h
    unfold splitString
    rw [if_pos h]
  · decide
  · rw [splitString_eq_filter, goSplit_comma]
    decide
  · rw [splitString_eq_filter, goSplit_comma]
    decide

/-- Concrete runs of C5: a whitespace-only input yields the empty sequence,
and a returned piece is non-empty and trimmed. -/
theorem splitString_spec_witness :
    splitString "   " ";" = [] ∧ ("a" ≠ "" ∧ goTrimSpace "a" = "a") := by
  constructor
  · exact splitString_spec.2.2.1 "   " ";" (by decide)
  · have e : splitString "a,b" "," = ["a", "b"] := by
      rw [splitString_eq_filter, goSplit_comma]
      decide
    exact splitString_spec.2.1 "a,b" "," "a" (by rw [e]; decide)

/-! ## `ProcessAssets` (C1, C3) -/

lemma processLoop_error (er : Bool) (incl excl : List String) :
    ∀ (assets : List AssetRecord) (acc : List ProcessedAsset) (e : String),
      processLoop er incl excl acc assets (some e) =
        Except.error ("failed to create asset client: " ++ e) := by
  intro assets
  induction assets with
  | nil => intro acc e; rfl
  | cons a rest ih =>
    intro acc e
    simp only [processLoop]
    repeat' split
    all_goals first
      | exact ih acc e
      | exact ih (acc ++ [processedOf a]) e

lemma processLoop_ok (er : Bool) (incl excl : List String) :
    ∀ (assets : List AssetRecord) (acc : List ProcessedAsset),
      processLoop er incl excl acc assets none =
        Except.ok (acc ++ (assets.filter (specKeepL er incl excl)).map processedOf) := by
  intro assets
  induction assets with
  | nil => intro acc; simp [processLoop]
  | cons a rest ih =>
    intro acc
    simp only [processLoop]
    rw [List.filter_cons]
    by_cases h1 : (er && a.state == "RESERVED") = true
    · rw [if_pos h1, ih]
      have hk : specKeepL er incl excl a = false := by
        unfold specKeepL
        rw [h1]
        simp
      rw [hk]
      simp
    · rw [Bool.not_eq_true] at h1
      rw [if_neg (by rw [h1]; exact Bool.false_ne_true)]
      by_cases h2 : excl.contains (getProjectID a) = true
      · rw [if_pos h2, ih]
        have hk : specKeepL er incl excl a = false := by
          unfold specKeepL
          rw [h2]
          simp
        rw [hk]
        simp
      · rw [Bool.not_eq_true] at h2
        rw [if_neg (by rw [h2]; exact Bool.false_ne_true)]
        have hinc : (if incl.length > 0 then incl.contains (getProjectID a) else true) =
            (incl.isEmpty || incl.contains (getProjectID a)) := by
          cases incl <;> simp
        rw [hinc]
        by_cases h3 : (incl.isEmpty || incl.contains (getProjectID a)) = true
        · rw [if_pos h3, ih]
          have hk : specKeepL er incl excl a = true := by
            unfold specKeepL
            rw [h3, h1, h2]
            simp
          rw [hk]
          simp
        · rw [Bool.not_eq_true] at h3
          rw [if_neg (by rw [h3]; exact Bool.false_ne_true)]
          rw [ih]
          have hk : specKeepL er incl excl a = false := by
            unfold specKeepL
            rw [h3, h1, h2]
            simp
          rw [hk]
          simp

/-- C1: for every error-free input sequence and every configuration,
`ProcessAssets` succeeds and emits exactly the records satisfying the spec's
condition — not (excludeReserved and state `"RESERVED"`), derived project id
not in the exclude list, and (include list empty or derived project id in
it) — mapped one-to-one to `ProcessedAsset` in source order; in particular
exclude-list membership removes a record even when the same project id is in
the include list. -/
theorem processAssets_emits_iff :
    ∀ (cfg : Config) (assets : List AssetRecord),
      processAssets cfg assets none =
        Except.ok ((assets.filter (specKeep cfg)).map processedOf) := by
  intro cfg assets
  unfold processAssets
  rw [processLoop_ok]
  rw [List.nil_append]
  rfl

/-- C3: when the iterator fails after any number of records, `ProcessAssets`
returns the error wrapped with context and no processed records at all. -/
theorem processAssets_error_discards :
    ∀ (cfg : Config) (assets : List AssetRecord) (e : String),
      processAssets cfg assets (some e) =
        Except.error ("failed to create asset client: " ++ e) := by
  intro cfg assets e
  unfold processAssets
  rw [processLoop_error]
